import Mathlib

/-!
Verification of the cachecow cache-key library (cachecow/intpacker.py and
cachecow/cache.py) against its natural-language specification.

Python 2 byte strings are modelled as `List Nat` (one entry per byte);
unicode strings are lists of code points that get UTF-8 encoded where the
source calls `unicode(x).encode('utf8')`.  The Django cache backend is an
external collaborator: its key-value store is modelled as an association
list threaded explicitly, its fixed key prefix (`cache.make_key('')`) as a
length parameter, and each backend call is recorded in an operation trace.
-/

/-- Python 2 `str`: a sequence of bytes. -/
abbrev ByteStr := List Nat

deriving instance DecidableEq for Except

/-- Convenience: the bytes of an ASCII Lean string literal. -/
def strB (s : String) : ByteStr := s.toList.map Char.toNat

/-! ### intpacker.py -/

/-- Source `_ALPHABET`: ascii_uppercase + ascii_lowercase + digits + the two
extra symbols, 64 bytes total. -/
def ALPHABET : ByteStr :=
  strB "ABCDEFGHIJKLMNOPQRSTUVWXYZabcdefghijklmnopqrstuvwxyz0123456789_="

/-- Source `_BASE = len(_ALPHABET)`. -/
def BASE : Nat := ALPHABET.length

/-- Byte of `_ALPHABET[r]`. -/
def alphaByte (r : Nat) : Nat := ALPHABET.getD r 0

/-- Source `_ALPHABET_REVERSE[c]`: index of byte `c` in the alphabet, or a
`KeyError` (`none`) when `c` is not an alphabet symbol. -/
def alphaIndex (c : Nat) : Option Nat := ALPHABET.findIdx? (fun a => a == c)

/-- The `while True` loop of source `pack_int(n)`, indexed by a fuel bound:
`none` means the loop did not finish within `fuel` iterations.  Each
iteration computes `n, r = divmod(n, _BASE)` with Python floor division
(`Int.fdiv`/`Int.fmod`), and the accumulated symbols are emitted
most-significant first (the source appends then reverses). -/
def packFuel (fuel : Nat) (n : Int) : Option ByteStr :=
  match fuel with
  | 0 => none
  | fuel + 1 =>
    if Int.fdiv n 64 = 0 then
      some [alphaByte (Int.fmod n 64).toNat]
    else if Int.fdiv n 64 = -1 then
      some [45, alphaByte (Int.fmod n 64).toNat]
    else
      (packFuel fuel (Int.fdiv n 64)).map (fun s => s ++ [alphaByte (Int.fmod n 64).toNat])

/-- Source `pack_int(n)`: the loop run with enough fuel (`packFuel_isSome`
below proves `n.natAbs + 1` iterations always suffice, i.e. the source's
unbounded loop terminates). -/
def pack_int (n : Int) : ByteStr := (packFuel (n.natAbs + 1) n).getD []

/-- Source `unpack_int(s)`: `n = n * _BASE + _ALPHABET_REVERSE[c]` left to
right; a byte outside the alphabet raises `KeyError`, modelled as `none`. -/
def unpack_int (s : ByteStr) : Option Int :=
  s.foldl
    (fun acc c => acc.bind (fun n => (alphaIndex c).map (fun i => n * 64 + Int.ofNat i)))
    (some 0)

/-! ### cache.py: key inputs and their serialization -/

/-- Python objects that may be passed to `make_key`: `None`, ints, bools,
strings (as unicode code points), lists and dicts.  This mirrors the
duck-typed inputs the source accepts. -/
inductive KeyInput where
  | none
  | int (n : Int)
  | bool (b : Bool)
  | text (s : List Nat)
  | list (xs : List KeyInput)
  | dict (entries : List (KeyInput × KeyInput))

/-- Source `MAX_KEY_LENGTH = 250`, the memcached limit. -/
def MAX_KEY_LENGTH : Nat := 250

/-- Source `_CONTROL_CODE_CHARS`: bytes 0x00-0x20, 0x7F and 0x80-0x9F. -/
def CONTROL_CODE_CHARS : List Nat :=
  List.range 33 ++ [127] ++ List.range' 128 32

/-- Source `s.translate(_ALL_CHARS, _CONTROL_CODE_CHARS)`: delete every
control byte (and space) from a byte string. -/
def stripCtrl (s : ByteStr) : ByteStr :=
  s.filter (fun b => !(CONTROL_CODE_CHARS.contains b))

/-- UTF-8 encoding of one code point. -/
def utf8Char (c : Nat) : List Nat :=
  if c < 128 then [c]
  else if c < 2048 then [192 + c / 64, 128 + c % 64]
  else if c < 65536 then [224 + c / 4096, 128 + c / 64 % 64, 128 + c % 64]
  else [240 + c / 262144, 128 + c / 4096 % 64, 128 + c / 64 % 64, 128 + c % 64]

/-- UTF-8 encoding of a code-point sequence, modelling `u.encode('utf8')`. -/
def utf8Encode (s : List Nat) : ByteStr := s.flatMap utf8Char

/-- Lowercase hex digit byte for a value below 16. -/
def hexDigit (m : Nat) : Nat := if m < 10 then 48 + m else 87 + m

/-- Escape of one code point inside a Python 2 `repr` of a unicode string. -/
def reprEscape (c : Nat) : List Nat :=
  if c = 92 then [92, 92]
  else if c = 39 then [92, 39]
  else if c = 9 then [92, 116]
  else if c = 10 then [92, 110]
  else if c = 13 then [92, 114]
  else if c < 32 || c = 127 then [92, 120, hexDigit (c / 16 % 16), hexDigit (c % 16)]
  else if c < 127 then [c]
  else if c < 256 then [92, 120, hexDigit (c / 16 % 16), hexDigit (c % 16)]
  else if c < 65536 then
    [92, 117, hexDigit (c / 4096 % 16), hexDigit (c / 256 % 16),
     hexDigit (c / 16 % 16), hexDigit (c % 16)]
  else
    [92, 85, hexDigit (c / 268435456 % 16), hexDigit (c / 16777216 % 16),
     hexDigit (c / 1048576 % 16), hexDigit (c / 65536 % 16),
     hexDigit (c / 4096 % 16), hexDigit (c / 256 % 16),
     hexDigit (c / 16 % 16), hexDigit (c % 16)]

/-- Decimal byte string of an integer, modelling `unicode(n)` for ints. -/
def intDec (n : Int) : ByteStr := strB (toString n)

mutual

/-- Python 2 `repr` (ASCII bytes) of a `KeyInput`, used by `unicode(x)` when
`x` is a list or dict.  Lists print as `[a, b]`, dicts as brace-wrapped
`k: v` pairs separated by commas. -/
def pyRepr (x : KeyInput) : ByteStr :=
  match x with
  | KeyInput.none => strB "None"
  | KeyInput.int n => intDec n
  | KeyInput.bool b => strB (if b then "True" else "False")
  | KeyInput.text s => [117, 39] ++ s.flatMap reprEscape ++ [39]
  | KeyInput.list xs => [91] ++ pyReprJoin xs ++ [93]
  | KeyInput.dict es => [123] ++ pyReprPairs es ++ [125]

/-- Comma-space separated reprs of list elements. -/
def pyReprJoin (xs : List KeyInput) : ByteStr :=
  match xs with
  | [] => []
  | [x] => pyRepr x
  | x :: rest => pyRepr x ++ [44, 32] ++ pyReprJoin rest

/-- Comma-space separated `k: v` reprs of dict entries. -/
def pyReprPairs (es : List (KeyInput × KeyInput)) : ByteStr :=
  match es with
  | [] => []
  | [(k, v)] => pyRepr k ++ [58, 32] ++ pyRepr v
  | (k, v) :: rest => pyRepr k ++ [58, 32] ++ pyRepr v ++ [44, 32] ++ pyReprPairs rest

end

/-- Source lambda `to_string = lambda x: unicode(x).encode('utf8')`. -/
def to_string (x : KeyInput) : ByteStr :=
  match x with
  | KeyInput.text s => utf8Encode s
  | KeyInput.none => strB "None"
  | KeyInput.int n => intDec n
  | KeyInput.bool b => strB (if b then "True" else "False")
  | KeyInput.list _ => pyRepr x
  | KeyInput.dict _ => pyRepr x

mutual

/-- Source `_key_arg_iterator(key_args, max_depth)`: strings are atoms;
other iterables (lists, and dicts, which iterate over their keys) are
expanded element-wise with `max_depth - 1` until the depth is exhausted;
non-iterables raise `TypeError` and are yielded whole. -/
def key_arg_iterator (x : KeyInput) (d : Int) : List KeyInput :=
  if d < 0 then [x]
  else
    match x with
    | KeyInput.text _ => [x]
    | KeyInput.list xs => keyArgIterList xs (d - 1)
    | KeyInput.dict es => keyArgIterKeys es (d - 1)
    | _ => [x]

/-- Concatenated iteration of list elements. -/
def keyArgIterList (xs : List KeyInput) (d : Int) : List KeyInput :=
  match xs with
  | [] => []
  | x :: rest => key_arg_iterator x d ++ keyArgIterList rest d

/-- Concatenated iteration of dict keys (Python iterates dicts by key). -/
def keyArgIterKeys (es : List (KeyInput × KeyInput)) (d : Int) : List KeyInput :=
  match es with
  | [] => []
  | (k, _) :: rest => key_arg_iterator k d ++ keyArgIterKeys rest d

end

/-- Source `_format_key_arg(arg)`: `None` returns `''` directly; dicts are
compacted to comma-joined `key:value` pairs; everything else goes through
`to_string`; except for the `None` early return, the result has all control
bytes stripped. -/
def format_key_arg (arg : KeyInput) : ByteStr :=
  match arg with
  | KeyInput.none => []
  | KeyInput.dict es =>
    stripCtrl (List.intercalate [44]
      (es.map (fun e => to_string e.1 ++ [58] ++ to_string e.2)))
  | _ => stripCtrl (to_string arg)

/-! ### hashlib.md5 (external collaborator, modelled in full over bytes) -/

/-- Truncation to 32 bits. -/
def u32 (x : Nat) : Nat := x % 4294967296

/-- Left rotation of a 32-bit value by `c` bits. -/
def rotl (x c : Nat) : Nat := u32 (x * 2 ^ c + x / 2 ^ (32 - c))

/-- MD5 round constants (floor(abs(sin(i+1)) * 2^32)). -/
def md5K : List Nat :=
  [3614090360, 3905402710, 606105819, 3250441966, 4118548399, 1200080426,
   2821735955, 4249261313, 1770035416, 2336552879, 4294925233, 2304563134,
   1804603682, 4254626195, 2792965006, 1236535329, 4129170786, 3225465664,
   643717713, 3921069994, 3593408605, 38016083, 3634488961, 3889429448,
   568446438, 3275163606, 4107603335, 1163531501, 2850285829, 4243563512,
   1735328473, 2368359562, 4294588738, 2272392833, 1839030562, 4259657740,
   2763975236, 1272893353, 4139469664, 3200236656, 681279174, 3936430074,
   3572445317, 76029189, 3654602809, 3873151461, 530742520, 3299628645,
   4096336452, 1126891415, 2878612391, 4237533241, 1700485571, 2399980690,
   4293915773, 2240044497, 1873313359, 4264355552, 2734768916, 1309151649,
   4149444226, 3174756917, 718787259, 3951481745]

/-- MD5 per-round shift amounts. -/
def md5S : List Nat :=
  [7, 12, 17, 22, 7, 12, 17, 22, 7, 12, 17, 22, 7, 12, 17, 22,
   5, 9, 14, 20, 5, 9, 14, 20, 5, 9, 14, 20, 5, 9, 14, 20,
   4, 11, 16, 23, 4, 11, 16, 23, 4, 11, 16, 23, 4, 11, 16, 23,
   6, 10, 15, 21, 6, 10, 15, 21, 6, 10, 15, 21, 6, 10, 15, 21]

/-- Little-endian byte decomposition of `x` into `n` bytes. -/
def leBytes (x n : Nat) : List Nat := (List.range n).map (fun i => x / 256 ^ i % 256)

/-- MD5 padding: append 0x80, zero bytes up to 56 mod 64, then the original
bit length as 8 little-endian bytes. -/
def md5Pad (msg : List Nat) : List Nat :=
  let r := (msg.length + 1) % 64
  let k := (56 + 64 - r) % 64
  msg ++ [128] ++ List.replicate k 0 ++ leBytes (msg.length * 8 % 2 ^ 64) 8

/-- Little-endian 32-bit word `g` of a 64-byte block. -/
def leWord (block : List Nat) (g : Nat) : Nat :=
  block.getD (4 * g) 0 + 256 * block.getD (4 * g + 1) 0
    + 65536 * block.getD (4 * g + 2) 0 + 16777216 * block.getD (4 * g + 3) 0

/-- One MD5 round `i` acting on the running state `(a, b, c, d)`. -/
def md5Round (block : List Nat) (st : Nat × Nat × Nat × Nat) (i : Nat) :
    Nat × Nat × Nat × Nat :=
  let a := st.1
  let b := st.2.1
  let c := st.2.2.1
  let d := st.2.2.2
  let fg : Nat × Nat :=
    if i < 16 then ((b &&& c) ||| ((4294967295 - b) &&& d), i)
    else if i < 32 then ((d &&& b) ||| ((4294967295 - d) &&& c), (5 * i + 1) % 16)
    else if i < 48 then (b ^^^ c ^^^ d, (3 * i + 5) % 16)
    else (c ^^^ (b ||| (4294967295 - d)), 7 * i % 16)
  let f := u32 (fg.1 + a + md5K.getD i 0 + leWord block fg.2)
  (d, u32 (b + rotl f (md5S.getD i 0)), b, c)

/-- MD5 compression of one 64-byte block into the chaining state. -/
def md5Block (st : Nat × Nat × Nat × Nat) (block : List Nat) :
    Nat × Nat × Nat × Nat :=
  let r := (List.range 64).foldl (md5Round block) st
  (u32 (st.1 + r.1), u32 (st.2.1 + r.2.1), u32 (st.2.2.1 + r.2.2.1),
   u32 (st.2.2.2 + r.2.2.2))

/-- Split a byte string into 64-byte chunks (`fuel` bounds the number of
chunks; callers pass the list length, which always suffices). -/
def chunksAux (fuel : Nat) (l : List Nat) : List (List Nat) :=
  match fuel, l with
  | _, [] => []
  | 0, _ => []
  | fuel + 1, l => l.take 64 :: chunksAux fuel (l.drop 64)

/-- Split a byte string into 64-byte chunks. -/
def chunks64 (l : List Nat) : List (List Nat) := chunksAux l.length l

/-- MD5 digest: 16 bytes. -/
def md5_digest (msg : List Nat) : List Nat :=
  let st := (chunks64 (md5Pad msg)).foldl md5Block
    (1732584193, 4023233417, 2562383102, 271733878)
  leBytes st.1 4 ++ leBytes st.2.1 4 ++ leBytes st.2.2.1 4 ++ leBytes st.2.2.2 4

/-- Two lowercase hex bytes of one digest byte. -/
def byteHex (b : Nat) : List Nat := [hexDigit (b / 16 % 16), hexDigit (b % 16)]

/-- Source `hashlib.md5(key).hexdigest()` as bytes. -/
def md5_hexdigest (msg : List Nat) : ByteStr := (md5_digest msg).flatMap byteHex

/-! ### cache.py: make_key -/

/-- The dot-joined serialized atoms of `obj`:
`'.'.join(imap(_format_key_arg, _key_arg_iterator(obj)))`. -/
def joined_key (obj : KeyInput) : ByteStr :=
  List.intercalate [46] ((key_arg_iterator obj 1).map format_key_arg)

/-- Source `make_key(obj)`.  `pl` is the length of the fixed prefix the
Django backend prepends (`len(cache.make_key(''))`), so that
`len(cache.make_key(key)) = pl + key.length`.  A result of `.error ()`
models the `Exception('Your cache key prefixes are too long.')` raise. -/
def make_key (pl : Nat) (obj : KeyInput) : Except Unit ByteStr :=
  let key := joined_key obj
  if MAX_KEY_LENGTH < pl + key.length then
    if MAX_KEY_LENGTH ≤ pl then Except.error ()
    else Except.ok ((md5_hexdigest key).take (MAX_KEY_LENGTH - pl))
  else Except.ok key

/-! ### cache.py: namespaces and the memoization engine

The Django backend's key-value store is external; it is modelled as an
association list threaded through each operation, together with a trace of
the backend calls issued. -/

/-- The external key-value store, as seen with values of type `α`. -/
abbrev Store (α : Type) := List (ByteStr × α)

/-- Raw lookup: `none` models a key absent from the store. -/
def lookupStore (st : Store α) (k : ByteStr) : Option α :=
  (st.find? (fun e => e.1 == k)).map (fun e => e.2)

/-- Backend `cache.set`: (over)write one key. -/
def storeSet (st : Store α) (k : ByteStr) (v : α) : Store α :=
  (k, v) :: st.filter (fun e => !(e.1 == k))

/-- Backend calls issued by the namespace machinery. -/
inductive NsOp where
  | get (k : ByteStr)
  | set (k : ByteStr) (v : Int)
  | incr (k : ByteStr)
deriving DecidableEq

/-- Source `_make_namespace_prefix()`: time-since-epoch modulo a decade, in
nanoseconds.  The current time (an external input) is passed in as `nowNs`,
nanoseconds since the epoch. -/
def make_namespace_seed (nowNs : Nat) : Int :=
  (nowNs : Int) % (3600 * 24 * 365 * 10 * 1000000000)

/-- Python truthiness of a `KeyInput` (`if not ns_key`, `if namespace`). -/
def pyTruthy : KeyInput → Bool
  | KeyInput.none => false
  | KeyInput.int n => n != 0
  | KeyInput.bool b => b
  | KeyInput.text s => !s.isEmpty
  | KeyInput.list xs => !xs.isEmpty
  | KeyInput.dict es => !es.isEmpty

/-- Source `_get_namespace_prefix(namespace)`: get the generation counter
stored under the (already serialized) namespace key, seeding it with `seed`
when absent or falsy, and return it packed with the int packer. -/
def get_namespace_str (st : Store Int) (nsKey : ByteStr) (seed : Int) :
    ByteStr × Store Int × List NsOp :=
  match lookupStore st nsKey with
  | some v =>
    if v != 0 then (pack_int v, st, [NsOp.get nsKey])
    else (pack_int seed, storeSet st nsKey seed, [NsOp.get nsKey, NsOp.set nsKey seed])
  | none =>
    (pack_int seed, storeSet st nsKey seed, [NsOp.get nsKey, NsOp.set nsKey seed])

/-- Source `invalidate_namespace(namespace)`: serialize the namespace with
`make_key` (whose raise propagates), read it once for the debug log, then
`cache.incr` it; the backend's `ValueError` for an absent key is swallowed. -/
def invalidate_namespace (pl : Nat) (st : Store Int) (ns : KeyInput) :
    Except Unit (Store Int × List NsOp) :=
  match make_key pl ns with
  | Except.error e => Except.error e
  | Except.ok nsKey =>
    match lookupStore st nsKey with
    | none => Except.ok (st, [NsOp.get nsKey, NsOp.incr nsKey])
    | some v => Except.ok (storeSet st nsKey (v + 1), [NsOp.get nsKey, NsOp.incr nsKey])

/-- Source `_make_key(key_args, namespace, func_args, func_kwargs)` for
key specs and namespaces that are not callables (`call_if_callable` is the
identity on non-callables): flatten `key_args` once, append the packed
namespace generation when a truthy namespace is given, and serialize with
`make_key`. -/
def make_key_for_func (pl : Nat) (st : Store Int) (key_args : KeyInput)
    (ns : Option KeyInput) (seed : Int) :
    Except Unit (ByteStr × Store Int × List NsOp) :=
  let args := key_arg_iterator key_args 1
  match ns with
  | some nsv =>
    if pyTruthy nsv then
      match make_key pl nsv with
      | Except.error e => Except.error e
      | Except.ok nsk =>
        let pre := get_namespace_str st nsk seed
        (make_key pl (KeyInput.list (args ++ [KeyInput.text pre.1]))).map
          (fun k => (k, pre.2.1, pre.2.2))
    else (make_key pl (KeyInput.list args)).map (fun k => (k, st, []))
  | none => (make_key pl (KeyInput.list args)).map (fun k => (k, st, []))

/-- A `timeout` argument of the decorators: `None`, an int, or a
`timedelta(days, seconds, microseconds)`. -/
inductive Timeout where
  | none
  | secs (n : Int)
  | delta (days seconds microseconds : Int)
deriving DecidableEq

/-- Source `_timedelta_to_seconds(t)`: `int(t.total_seconds())` (the Python
2.7 branch of the try), with `int()` truncating toward zero. -/
def timedelta_to_seconds (days seconds microseconds : Int) : Int :=
  Int.tdiv (days * 86400 * 1000000 + seconds * 1000000 + microseconds) 1000000

/-- The integer (or `None`) number of seconds a timeout resolves to. -/
def resolve_timeout : Timeout → Option Int
  | Timeout.none => Option.none
  | Timeout.secs n => some n
  | Timeout.delta d s ms => some (timedelta_to_seconds d s ms)

/-- Whether a timeout resolves to a negative (and truthy) number of
seconds, triggering `Exception('Cache timeout value must not be negative.')`. -/
def neg_resolved (t : Timeout) : Bool :=
  match resolve_timeout t with
  | some n => decide (n < 0)
  | Option.none => false

/-- Backend calls issued by the memoization engine; stored values live in
`Option β`, `none` being Python `None`. -/
inductive CacheOp (β : Type) where
  | get (k : ByteStr)
  | set (k : ByteStr) (v : Option β) (ttl : Option Int)
  | del (k : ByteStr)
deriving DecidableEq

/-- Backend `cache.get` as the decorators see it: an absent key and a stored
`None` are both returned as `None`. -/
def cache_get (st : Store (Option β)) (k : ByteStr) : Option β :=
  (lookupStore st k).join

/-- Source `_set_cache(key, val, timeout)`: resolve a timedelta, raise on a
negative truthy timeout, else issue `cache.set`. -/
def set_cache (st : Store (Option β)) (k : ByteStr) (v : Option β)
    (t : Timeout) : Except Unit (Store (Option β) × CacheOp β) :=
  if neg_resolved t then Except.error ()
  else Except.ok (storeSet st k v, CacheOp.set k v (resolve_timeout t))

/-- Outcome of one call to a function memoized with `cached_function`:
the backend calls issued, the returned value (`none` when the call raised),
the resulting store, and whether the wrapped producer was invoked. -/
structure CallResult (β : Type) where
  ops : List (CacheOp β)
  ret : Option (Option β)
  store : Store (Option β)
  invoked : Bool
deriving DecidableEq

/-- Source `cached_function(...)`'s `wrapped(*args, **kwargs)` with no
namespace (so the key derivation touches no backend state): serialize the
key spec, `cache.get` it, and on a miss run the producer and `_set_cache`
its result.  The producer's return value is passed in as `producer`
(`Option β`, `none` being a Python `None` result). -/
def cached_function_call (pl : Nat) (st : Store (Option β))
    (key_args : KeyInput) (producer : Option β) (t : Timeout) : CallResult β :=
  match make_key pl (KeyInput.list (key_arg_iterator key_args 1)) with
  | Except.error _ => ⟨[], Option.none, st, false⟩
  | Except.ok k =>
    match cache_get st k with
    | some v => ⟨[CacheOp.get k], some (some v), st, false⟩
    | Option.none =>
      match set_cache st k producer t with
      | Except.error _ => ⟨[CacheOp.get k], Option.none, st, true⟩
      | Except.ok r => ⟨[CacheOp.get k, r.2], some producer, r.1, true⟩

/-! ### Lemmas: intpacker -/

/-- Divmod characterization of one loop iteration of `pack_int`. -/
lemma int_divmod64 (n : Int) :
    n = 64 * Int.fdiv n 64 + Int.fmod n 64 ∧
    0 ≤ Int.fmod n 64 ∧ Int.fmod n 64 < 64 := by
  refine ⟨?_, Int.fmod_nonneg' n (by norm_num), Int.fmod_lt_of_pos n (by norm_num)⟩
  have h := Int.fmod_add_fdiv n 64
  linarith

/-- Alphabet symbols are alphabet members. -/
lemma alphaByte_mem : ∀ r : Nat, r < 64 → alphaByte r ∈ ALPHABET := by decide

/-- The reverse lookup inverts the alphabet table. -/
lemma alphaIndex_alphaByte : ∀ r : Nat, r < 64 → alphaIndex (alphaByte r) = some r := by
  decide

/-- The packing loop finishes once the fuel exceeds `n.natAbs`. -/
lemma packFuel_isSome : ∀ (f : Nat) (n : Int), n.natAbs < f →
    (packFuel f n).isSome = true := by
  intro f
  induction f with
  | zero => intro n h; omega
  | succ f ih =>
    intro n h
    obtain ⟨hd, hm0, hm1⟩ := int_divmod64 n
    by_cases h0 : Int.fdiv n 64 = 0
    · simp [packFuel, if_pos h0]
    · by_cases h1 : Int.fdiv n 64 = -1
      · simp [packFuel, if_neg h0, if_pos h1]
      · simp only [packFuel, if_neg h0, if_neg h1, Option.isSome_map']
        exact ih (Int.fdiv n 64) (by omega)

/-- The result of the packing loop does not depend on the fuel, as long as
there is enough of it. -/
lemma packFuel_agree : ∀ (f g : Nat) (n : Int), n.natAbs < f → n.natAbs < g →
    packFuel f n = packFuel g n := by
  intro f
  induction f with
  | zero => intro g n h _; omega
  | succ f ih =>
    intro g n hf hg
    cases g with
    | zero => omega
    | succ g =>
      obtain ⟨hd, hm0, hm1⟩ := int_divmod64 n
      by_cases h0 : Int.fdiv n 64 = 0
      · simp [packFuel, if_pos h0]
      · by_cases h1 : Int.fdiv n 64 = -1
        · simp [packFuel, if_neg h0, if_pos h1]
        · simp only [packFuel, if_neg h0, if_neg h1]
          rw [ih g (Int.fdiv n 64) (by omega) (by omega)]

/-- Enough fuel makes the loop return exactly `pack_int`. -/
lemma packFuel_eq_pack (f : Nat) (n : Int) (h : n.natAbs < f) :
    packFuel f n = some (pack_int n) := by
  rw [packFuel_agree f (n.natAbs + 1) n h (by omega)]
  obtain ⟨s, hs⟩ := Option.isSome_iff_exists.mp (packFuel_isSome (n.natAbs + 1) n (by omega))
  rw [hs]
  simp [pack_int, hs]

/-- Unpacking peels the last symbol off. -/
lemma unpack_append (xs : ByteStr) (c : Nat) :
    unpack_int (xs ++ [c])
      = (unpack_int xs).bind (fun n => (alphaIndex c).map (fun i => n * 64 + Int.ofNat i)) := by
  simp [unpack_int, List.foldl_append]

/-- Unpacking inverts the packing loop on nonnegative inputs. -/
lemma unpack_packFuel : ∀ (f : Nat) (n : Int), 0 ≤ n → n.natAbs < f →
    ∀ s, packFuel f n = some s → unpack_int s = some n := by
  intro f
  induction f with
  | zero => intro n _ h; omega
  | succ f ih =>
    intro n hn hf s hs
    obtain ⟨hd, hm0, hm1⟩ := int_divmod64 n
    have hq : 0 ≤ Int.fdiv n 64 := Int.fdiv_nonneg hn (by norm_num)
    have hr : (Int.fmod n 64).toNat < 64 := by omega
    by_cases h0 : Int.fdiv n 64 = 0
    · simp only [packFuel, if_pos h0, Option.some.injEq] at hs
      subst hs
      simp only [unpack_int, List.foldl_cons, List.foldl_nil, Option.some_bind,
        alphaIndex_alphaByte _ hr, Option.map_some', Option.some.injEq,
        Int.ofNat_eq_natCast]
      omega
    · by_cases h1 : Int.fdiv n 64 = -1
      · omega
      · simp only [packFuel, if_neg h0, if_neg h1, Option.map_eq_some'] at hs
        obtain ⟨s', hs', rfl⟩ := hs
        rw [unpack_append, ih (Int.fdiv n 64) hq (by omega) s' hs']
        simp only [Option.some_bind, alphaIndex_alphaByte _ hr, Option.map_some',
          Option.some.injEq, Int.ofNat_eq_natCast]
        omega

/-- The packing loop only ever emits alphabet symbols and the sign marker,
and emits at least one symbol. -/
lemma packFuel_output : ∀ (f : Nat) (n : Int) (s : ByteStr), packFuel f n = some s →
    s ≠ [] ∧ ∀ b ∈ s, b ∈ ALPHABET ∨ b = 45 := by
  intro f
  induction f with
  | zero => intro n s hs; simp [packFuel] at hs
  | succ f ih =>
    intro n s hs
    obtain ⟨hd, hm0, hm1⟩ := int_divmod64 n
    have hr : (Int.fmod n 64).toNat < 64 := by omega
    by_cases h0 : Int.fdiv n 64 = 0
    · simp only [packFuel, if_pos h0, Option.some.injEq] at hs
      subst hs
      refine ⟨by simp, ?_⟩
      intro b hb
      simp only [List.mem_singleton] at hb
      subst hb
      exact Or.inl (alphaByte_mem _ hr)
    · by_cases h1 : Int.fdiv n 64 = -1
      · simp only [packFuel, if_neg h0, if_pos h1, Option.some.injEq] at hs
        subst hs
        refine ⟨by simp, ?_⟩
        intro b hb
        simp only [List.mem_cons, List.mem_singleton, List.not_mem_nil, or_false] at hb
        rcases hb with hb | hb
        · exact Or.inr hb
        · subst hb; exact Or.inl (alphaByte_mem _ hr)
      · simp only [packFuel, if_neg h0, if_neg h1, Option.map_eq_some'] at hs
        obtain ⟨s', hs', rfl⟩ := hs
        obtain ⟨hne, hmem⟩ := ih (Int.fdiv n 64) s' hs'
        refine ⟨by simp, ?_⟩
        intro b hb
        rcases List.mem_append.mp hb with hb | hb
        · exact hmem b hb
        · simp only [List.mem_singleton] at hb
          subst hb
          exact Or.inl (alphaByte_mem _ hr)

/-- C1, counterexample: the promised round trip fails on the negative
integer -1: `pack_int (-1)` is the two bytes `"-="`, and `unpack_int` has
no entry for the sign marker `'-'`, so it raises `KeyError` (`none`)
instead of returning -1. -/
theorem unpack_int_pack_int_neg_one_fails :
    ¬ unpack_int (pack_int (-1)) = some (-1) := by decide

/-- C1 (amended): the round trip `unpack_int (pack_int n) = n` holds for
every nonnegative integer `n`; for negative integers `pack_int` emits the
sign marker `'-'`, which `unpack_int` cannot decode. -/
theorem unpack_int_pack_int_of_nonneg (n : Int) (h : 0 ≤ n) :
    unpack_int (pack_int n) = some n :=
  unpack_packFuel (n.natAbs + 1) n h (by omega) _
    (packFuel_eq_pack (n.natAbs + 1) n (by omega))

/-- C1 witness: the amended round trip at the concrete input 12345. -/
theorem unpack_int_pack_int_of_nonneg_witness :
    unpack_int (pack_int 12345) = some 12345 :=
  unpack_int_pack_int_of_nonneg 12345 (by decide)

/-- C10: `pack_int` terminates for every integer input: `n.natAbs + 1`
iterations of the divmod loop always reach quotient 0 or -1 (the fueled
loop returns `some`), and the result is a non-empty string drawn from the
64-symbol alphabet plus the sign marker `'-'` (byte 45). -/
theorem pack_int_terminates_and_alphabet (n : Int) :
    packFuel (n.natAbs + 1) n = some (pack_int n) ∧
    pack_int n ≠ [] ∧ ∀ b ∈ pack_int n, b ∈ ALPHABET ∨ b = 45 := by
  have h := packFuel_eq_pack (n.natAbs + 1) n (by omega)
  exact ⟨h, packFuel_output (n.natAbs + 1) n (pack_int n) h⟩

/-! ### Lemmas: make_key -/

set_option maxRecDepth 8000 in
/-- Every byte in the control ranges is in the stripped set. -/
lemma control_of_range : ∀ b : Nat, b < 160 →
    (b ≤ 32 ∨ b = 127 ∨ (128 ≤ b ∧ b ≤ 159)) → b ∈ CONTROL_CODE_CHARS := by
  decide

/-- Bytes surviving the control-character strip are not control bytes. -/
lemma mem_stripCtrl (s : ByteStr) (b : Nat) (hb : b ∈ stripCtrl s) :
    ¬(b ≤ 32 ∨ b = 127 ∨ (128 ≤ b ∧ b ≤ 159)) := by
  have h := (List.mem_filter.mp hb).2
  intro hc
  have hmem : b ∈ CONTROL_CODE_CHARS := control_of_range b (by omega) hc
  simp only [List.elem_eq_mem, Bool.not_eq_true', decide_eq_false_iff_not] at h
  exact h hmem

/-- Every byte of a formatted key atom survived the control strip. -/
lemma format_key_arg_no_ctrl (a : KeyInput) (b : Nat) (hb : b ∈ format_key_arg a) :
    ¬(b ≤ 32 ∨ b = 127 ∨ (128 ≤ b ∧ b ≤ 159)) := by
  cases a with
  | none => simp [format_key_arg] at hb
  | dict es => exact mem_stripCtrl _ b hb
  | int n => exact mem_stripCtrl _ b hb
  | bool v => exact mem_stripCtrl _ b hb
  | text s => exact mem_stripCtrl _ b hb
  | list xs => exact mem_stripCtrl _ b hb

/-- Unfolding of `intercalate` over at least two pieces. -/
lemma intercalate_cons_cons (sep x y : ByteStr) (zs : List ByteStr) :
    List.intercalate sep (x :: y :: zs) = x ++ sep ++ List.intercalate sep (y :: zs) := by
  simp [List.intercalate]

/-- Membership in a dot-join comes from the separator or from a piece. -/
lemma mem_intercalate_sep : ∀ (L : List ByteStr) (b : Nat),
    b ∈ List.intercalate [46] L → b = 46 ∨ ∃ l ∈ L, b ∈ l := by
  intro L
  induction L with
  | nil => intro b hb; simp [List.intercalate] at hb
  | cons x rest ih =>
    cases rest with
    | nil =>
      intro b hb
      simp only [List.intercalate, List.intersperse_single, List.flatten_cons,
        List.flatten_nil, List.append_nil] at hb
      exact Or.inr ⟨x, by simp, hb⟩
    | cons y zs =>
      intro b hb
      rw [intercalate_cons_cons] at hb
      rcases List.mem_append.mp hb with h | h
      · rcases List.mem_append.mp h with h | h
        · exact Or.inr ⟨x, by simp, h⟩
        · left; simpa using h
      · rcases ih b h with h | h
        · exact Or.inl h
        · obtain ⟨l, hl, hbl⟩ := h
          exact Or.inr ⟨l, by simp [hl], hbl⟩

/-- Bytes of the dot-joined serialized atoms are never control bytes. -/
lemma joined_key_no_ctrl (obj : KeyInput) (b : Nat) (hb : b ∈ joined_key obj) :
    ¬(b ≤ 32 ∨ b = 127 ∨ (128 ≤ b ∧ b ≤ 159)) := by
  rcases mem_intercalate_sep _ b hb with h | h
  · subst h; omega
  · obtain ⟨l, hl, hbl⟩ := h
    obtain ⟨a, _, rfl⟩ := List.mem_map.mp hl
    exact format_key_arg_no_ctrl a b hbl

/-- Hex digits of values below 16 are digit or lowercase-letter bytes. -/
lemma hexDigit_range (m : Nat) (h : m < 16) :
    (48 ≤ hexDigit m ∧ hexDigit m ≤ 57) ∨ (97 ≤ hexDigit m ∧ hexDigit m ≤ 102) := by
  simp only [hexDigit]
  split <;> omega

/-- Every byte of an md5 hexdigest is a hex-digit byte. -/
lemma md5_hexdigest_hex (msg : List Nat) (b : Nat) (hb : b ∈ md5_hexdigest msg) :
    (48 ≤ b ∧ b ≤ 57) ∨ (97 ≤ b ∧ b ≤ 102) := by
  obtain ⟨a, _, hba⟩ := List.mem_flatMap.mp hb
  simp only [byteHex, List.mem_cons, List.mem_singleton, List.not_mem_nil, or_false] at hba
  rcases hba with rfl | rfl
  · exact hexDigit_range _ (Nat.mod_lt _ (by norm_num))
  · exact hexDigit_range _ (Nat.mod_lt _ (by norm_num))

/-- C6: no control byte (0x00-0x20, 0x7F, 0x80-0x9F) ever appears in a key
derived by `make_key`, whichever path produced it: formatted atoms are
control-stripped, the dot separator is not a control byte, and the hashing
fallback emits only hex digits. -/
theorem make_key_no_control_bytes (pl : Nat) (obj : KeyInput) (k : ByteStr)
    (h : make_key pl obj = Except.ok k) :
    ∀ b ∈ k, ¬(b ≤ 32 ∨ b = 127 ∨ (128 ≤ b ∧ b ≤ 159)) := by
  intro b hb
  by_cases h1 : MAX_KEY_LENGTH < pl + (joined_key obj).length
  · by_cases h2 : MAX_KEY_LENGTH ≤ pl
    · simp [make_key, if_pos h1, if_pos h2] at h
    · simp only [make_key, if_pos h1, if_neg h2, Except.ok.injEq] at h
      subst h
      have hmem := List.take_subset _ _ hb
      have := md5_hexdigest_hex _ b hmem
      omega
  · simp only [make_key, if_neg h1, Except.ok.injEq] at h
    subst h
    exact joined_key_no_ctrl obj b hb

/-- C6 witness: the concrete key for `["user", 42]` with a 3-byte backend
prefix contains the byte 'u' (117), which is indeed not a control byte. -/
theorem make_key_no_control_bytes_witness :
    ¬((117 : Nat) ≤ 32 ∨ (117 : Nat) = 127 ∨ (128 ≤ (117 : Nat) ∧ (117 : Nat) ≤ 159)) :=
  make_key_no_control_bytes 3
    (KeyInput.list [KeyInput.text (strB "user"), KeyInput.int 42])
    (strB "user.42") (by rfl) 117 (by decide)

/-- C2: the backend prefix length plus the length of any key returned by
`make_key` never exceeds `MAX_KEY_LENGTH` (250); whenever the dot-joined
formatted atoms together with the prefix would exceed the limit, the
returned key is the md5 hex digest of the joined atoms truncated to
`MAX_KEY_LENGTH - pl` bytes, and no prefix of the long joined input that is
longer than that fallback output can occur inside it (in particular the
joined input itself never appears in the fallback output). -/
theorem make_key_length_bound (pl : Nat) (obj : KeyInput) (k : ByteStr)
    (h : make_key pl obj = Except.ok k) :
    pl + k.length ≤ MAX_KEY_LENGTH ∧
    (MAX_KEY_LENGTH < pl + (joined_key obj).length →
      k = (md5_hexdigest (joined_key obj)).take (MAX_KEY_LENGTH - pl) ∧
      ∀ p a b : ByteStr, (∃ t, p ++ t = joined_key obj) → k.length < p.length →
        a ++ p ++ b ≠ k) := by
  by_cases h1 : MAX_KEY_LENGTH < pl + (joined_key obj).length
  · by_cases h2 : MAX_KEY_LENGTH ≤ pl
    · simp [make_key, if_pos h1, if_pos h2] at h
    · simp only [make_key, if_pos h1, if_neg h2, Except.ok.injEq] at h
      subst h
      constructor
      · have := List.length_take_le (MAX_KEY_LENGTH - pl) (md5_hexdigest (joined_key obj))
        omega
      · intro _
        refine ⟨rfl, ?_⟩
        intro p a b _ hlen heq
        have := congrArg List.length heq
        simp only [List.length_append] at this
        omega
  · simp only [make_key, if_neg h1, Except.ok.injEq] at h
    subst h
    refine ⟨by omega, ?_⟩
    intro hcontra
    exact absurd hcontra h1

/-- C2 witness: with a 245-byte backend prefix the 10-byte input
`"abcdefghij"` overflows the limit; the theorem applies to the resulting
truncated digest key and bounds its length. -/
theorem make_key_length_bound_witness :
    245 + ((md5_hexdigest (strB "abcdefghij")).take 5).length ≤ MAX_KEY_LENGTH :=
  (make_key_length_bound 245 (KeyInput.text (strB "abcdefghij"))
    ((md5_hexdigest (strB "abcdefghij")).take 5) (by rfl)).1

/-- C8, counterexample: a backend prefix of exactly `MAX_KEY_LENGTH` bytes
meets the claimed raise condition (`prefixLength >= maxKeyLength`), yet
`make_key` of `None` (which serializes to the empty key) returns the empty
key instead of raising: the prefix check sits inside the length-overflow
branch, which `250 > 250` fails to enter. -/
theorem make_key_prefix_at_limit_returns :
    MAX_KEY_LENGTH ≤ 250 ∧ make_key 250 KeyInput.none = Except.ok [] := by
  constructor
  · decide
  · rfl

/-- C8 (amended): `make_key` raises the fatal configuration error exactly
when the backend prefix alone meets or exceeds `MAX_KEY_LENGTH` and the
prefixed key would strictly exceed `MAX_KEY_LENGTH`; in the single boundary
case where the prefix exactly equals the limit and the input serializes to
the empty key, the empty key is returned instead. -/
theorem make_key_prefix_too_long_raises (pl : Nat) (obj : KeyInput)
    (h : MAX_KEY_LENGTH ≤ pl) :
    make_key pl obj = Except.error () ↔
      MAX_KEY_LENGTH < pl + (joined_key obj).length := by
  by_cases h1 : MAX_KEY_LENGTH < pl + (joined_key obj).length
  · simp only [make_key, if_pos h1, if_pos h]
    exact ⟨fun _ => h1, fun _ => trivial⟩
  · simp [make_key, if_neg h1, h1]

/-- C8 witness: a 251-byte prefix raises even for the empty serialized
key, matching the amended condition. -/
theorem make_key_prefix_too_long_raises_witness :
    make_key 251 KeyInput.none = Except.error () ↔
      MAX_KEY_LENGTH < 251 + (joined_key KeyInput.none).length :=
  make_key_prefix_too_long_raises 251 KeyInput.none (by decide)

/-- C9: `make_key` happily returns the empty string as a key: `None`, the
empty string and the empty list all serialize to the empty key, with no
error raised and no minimum length enforced (for any prefix length up to
the maximum). -/
theorem make_key_empty_key (pl : Nat) (h : pl ≤ MAX_KEY_LENGTH) :
    make_key pl KeyInput.none = Except.ok [] ∧
    make_key pl (KeyInput.text []) = Except.ok [] ∧
    make_key pl (KeyInput.list []) = Except.ok [] := by
  have hn : joined_key KeyInput.none = [] := rfl
  have ht : joined_key (KeyInput.text []) = [] := rfl
  have hl : joined_key (KeyInput.list []) = [] := rfl
  refine ⟨?_, ?_, ?_⟩
  · simp only [make_key, hn, List.length_nil, Nat.add_zero]
    rw [if_neg (by omega)]
  · simp only [make_key, ht, List.length_nil, Nat.add_zero]
    rw [if_neg (by omega)]
  · simp only [make_key, hl, List.length_nil, Nat.add_zero]
    rw [if_neg (by omega)]

/-- C9 witness: the empty key cases at the default Django prefix length 3
(prefix `":1:"`). -/
theorem make_key_empty_key_witness :
    make_key 3 KeyInput.none = Except.ok [] ∧
    make_key 3 (KeyInput.text []) = Except.ok [] ∧
    make_key 3 (KeyInput.list []) = Except.ok [] :=
  make_key_empty_key 3 (by decide)

/-! ### Lemmas: namespaces and memoization -/

/-- C7: invalidating a namespace whose generation key is absent from the
store does not raise — the backend's increment is issued, its
key-does-not-exist `ValueError` is swallowed — the store is left unchanged
(the generation stays unset), and the next access through
`_get_namespace_prefix` seeds the namespace freshly. -/
theorem invalidate_namespace_absent (pl : Nat) (st : Store Int) (ns : KeyInput)
    (nsKey : ByteStr) (h1 : make_key pl ns = Except.ok nsKey)
    (h2 : lookupStore st nsKey = Option.none) :
    invalidate_namespace pl st ns
      = Except.ok (st, [NsOp.get nsKey, NsOp.incr nsKey]) ∧
    (∀ seed : Int, (get_namespace_str st nsKey seed).1 = pack_int seed ∧
      (get_namespace_str st nsKey seed).2.1 = storeSet st nsKey seed) := by
  constructor
  · simp [invalidate_namespace, h1, h2]
  · intro seed
    simp [get_namespace_str, h2]

/-- C7 witness: invalidating the never-seeded namespace
`"nonexistent_namespace"` on an empty store returns successfully with the
store untouched. -/
theorem invalidate_namespace_absent_witness :
    invalidate_namespace 3 ([] : Store Int) (KeyInput.text (strB "nonexistent_namespace"))
      = Except.ok ([], [NsOp.get (strB "nonexistent_namespace"),
                        NsOp.incr (strB "nonexistent_namespace")]) :=
  (invalidate_namespace_absent 3 [] (KeyInput.text (strB "nonexistent_namespace"))
    (strB "nonexistent_namespace") (by rfl) (by rfl)).1

/-- Alphabet bytes are printable ASCII. -/
lemma alpha_bytes_tame : ∀ b ∈ ALPHABET, 32 < b ∧ b < 127 := by decide

/-- Bytes of a packed integer are printable ASCII. -/
lemma pack_int_tame (g : Int) : ∀ b ∈ pack_int g, 32 < b ∧ b < 127 := by
  intro b hb
  have h := (pack_int_terminates_and_alphabet g).2.2 b hb
  rcases h with h | h
  · exact alpha_bytes_tame b h
  · omega

/-- UTF-8 encoding is the identity on ASCII byte strings. -/
lemma utf8Encode_ascii : ∀ s : List Nat, (∀ b ∈ s, b < 128) → utf8Encode s = s := by
  intro s
  induction s with
  | nil => intro _; rfl
  | cons c rest ih =>
    intro h
    have hc : c < 128 := h c (by simp)
    simp only [utf8Encode, List.flatMap_cons, utf8Char, if_pos hc, List.singleton_append,
      List.cons.injEq, true_and]
    exact ih (fun b hb => h b (by simp [hb]))

set_option maxRecDepth 8000 in
/-- Every byte of the stripped set lies in the control ranges. -/
lemma control_mem_range : ∀ b ∈ CONTROL_CODE_CHARS,
    b ≤ 32 ∨ b = 127 ∨ (128 ≤ b ∧ b ≤ 159) := by
  decide

/-- Stripping control characters is the identity on printable ASCII. -/
lemma stripCtrl_tame (s : ByteStr) (h : ∀ b ∈ s, 32 < b ∧ b < 127) :
    stripCtrl s = s := by
  apply List.filter_eq_self.mpr
  intro b hb
  obtain ⟨hb1, hb2⟩ := h b hb
  have hnot : b ∉ CONTROL_CODE_CHARS := by
    intro hmem
    have := control_mem_range b hmem
    omega
  simp only [List.elem_eq_mem, Bool.not_eq_true', decide_eq_false_iff_not]
  exact hnot

/-- Appending a final piece to a non-empty dot-join adds one dot and the
piece. -/
lemma intercalate_concat (x : ByteStr) : ∀ L : List ByteStr, L ≠ [] →
    List.intercalate [46] (L ++ [x]) = List.intercalate [46] L ++ [46] ++ x := by
  intro L
  induction L with
  | nil => intro h; exact absurd rfl h
  | cons y rest ih =>
    intro _
    cases rest with
    | nil =>
      simp only [List.nil_append, List.cons_append, intercalate_cons_cons]
      simp [List.intercalate]
    | cons z zs =>
      have h1 : (y :: z :: zs) ++ [x] = y :: ((z :: zs) ++ [x]) := by simp
      rw [h1]
      have h2 : (z :: zs) ++ [x] = z :: (zs ++ [x]) := by simp
      rw [h2, intercalate_cons_cons, ← h2, ih (by simp), intercalate_cons_cons]
      simp [List.append_assoc]

/-- The key-argument iterator distributes over list concatenation. -/
lemma keyArgIterList_append : ∀ (L1 L2 : List KeyInput) (d : Int),
    keyArgIterList (L1 ++ L2) d = keyArgIterList L1 d ++ keyArgIterList L2 d := by
  intro L1 L2 d
  induction L1 with
  | nil => simp [keyArgIterList]
  | cons x rest ih =>
    show key_arg_iterator x d ++ keyArgIterList (rest ++ L2) d
        = (key_arg_iterator x d ++ keyArgIterList rest d) ++ keyArgIterList L2 d
    rw [ih, List.append_assoc]

/-- C3, counterexample: with the generation counter of namespace `"ns"`
stored as 7 (packed `"H"`), the key built for key spec `"foo"` is
`"foo.H"` — the packed generation is appended as a final dot-separated
atom — and not the claimed `"H:foo"` with a `"{packed}:"` prefix. -/
theorem make_key_for_func_not_prepended :
    make_key_for_func 0 [(strB "ns", (7 : Int))] (KeyInput.text (strB "foo"))
      (some (KeyInput.text (strB "ns"))) 0
      = Except.ok (strB "foo.H", [(strB "ns", (7 : Int))], [NsOp.get (strB "ns")]) ∧
    strB "foo.H" ≠ strB "H:foo" := by
  constructor
  · decide
  · decide

/-- C3 (amended): when a truthy namespace with a stored non-zero generation
`g` is given, the built key is the namespace-free serialized key followed
by a dot and `pack_int g`: the generation is packed with the int packer and
appended as the final dot-separated atom (not prepended as
`"{packed}:"`). -/
theorem make_key_for_func_appends_packed_generation (pl : Nat) (st : Store Int)
    (ka ns : KeyInput) (seed g : Int) (nsk : ByteStr)
    (h1 : make_key pl ns = Except.ok nsk)
    (h2 : lookupStore st nsk = some g)
    (h3 : g ≠ 0)
    (h4 : pyTruthy ns = true)
    (h5 : key_arg_iterator (KeyInput.list (key_arg_iterator ka 1)) 1 ≠ [])
    (h6 : pl + (joined_key (KeyInput.list
            (key_arg_iterator ka 1 ++ [KeyInput.text (pack_int g)]))).length
          ≤ MAX_KEY_LENGTH) :
    make_key_for_func pl st ka (some ns) seed
      = Except.ok (joined_key (KeyInput.list (key_arg_iterator ka 1))
                     ++ 46 :: pack_int g, st, [NsOp.get nsk]) := by
  have hg : (g != 0) = true := by simpa using h3
  have htame := pack_int_tame g
  have hfmt : format_key_arg (KeyInput.text (pack_int g)) = pack_int g := by
    simp only [format_key_arg]
    rw [show to_string (KeyInput.text (pack_int g)) = utf8Encode (pack_int g) from rfl,
      utf8Encode_ascii _ (fun b hb => (htame b hb).2.trans (by norm_num)),
      stripCtrl_tame _ htame]
  have hiter1 : key_arg_iterator (KeyInput.list (key_arg_iterator ka 1)) 1
      = keyArgIterList (key_arg_iterator ka 1) 0 := by
    simp [key_arg_iterator]
  have hitertext : key_arg_iterator (KeyInput.text (pack_int g)) 0
      = [KeyInput.text (pack_int g)] := by
    simp [key_arg_iterator]
  have hiter2 : key_arg_iterator (KeyInput.list
        (key_arg_iterator ka 1 ++ [KeyInput.text (pack_int g)])) 1
      = keyArgIterList (key_arg_iterator ka 1) 0 ++ [KeyInput.text (pack_int g)] := by
    simp only [key_arg_iterator]
    rw [if_neg (by norm_num)]
    rw [show (1 : Int) - 1 = 0 from rfl, keyArgIterList_append]
    simp [keyArgIterList, hitertext]
  have hjoined : joined_key (KeyInput.list
        (key_arg_iterator ka 1 ++ [KeyInput.text (pack_int g)]))
      = joined_key (KeyInput.list (key_arg_iterator ka 1)) ++ 46 :: pack_int g := by
    rw [joined_key, hiter2, List.map_append]
    simp only [List.map_cons, List.map_nil, hfmt]
    rw [intercalate_concat _ _ (by
      intro hcontra
      apply h5
      rw [hiter1]
      exact List.map_eq_nil_iff.mp hcontra)]
    rw [joined_key, hiter1]
    simp [List.append_assoc]
  have hns : get_namespace_str st nsk seed = (pack_int g, st, [NsOp.get nsk]) := by
    simp [get_namespace_str, h2, hg]
  have hmk : make_key pl (KeyInput.list
        (key_arg_iterator ka 1 ++ [KeyInput.text (pack_int g)]))
      = Except.ok (joined_key (KeyInput.list (key_arg_iterator ka 1))
          ++ 46 :: pack_int g) := by
    simp only [make_key]
    rw [if_neg (by omega), hjoined]
  simp only [make_key_for_func, if_pos h4, h1, hns, hmk, Except.map]

/-- C3 witness: the amended shape at the concrete instance of the
counterexample (key spec `"foo"`, namespace `"ns"`, stored generation 7). -/
theorem make_key_for_func_appends_packed_generation_witness :
    make_key_for_func 0 [(strB "ns", (7 : Int))] (KeyInput.text (strB "foo"))
      (some (KeyInput.text (strB "ns"))) 0
      = Except.ok (joined_key (KeyInput.list
          (key_arg_iterator (KeyInput.text (strB "foo")) 1)) ++ 46 :: pack_int 7,
          [(strB "ns", (7 : Int))], [NsOp.get (strB "ns")]) :=
  make_key_for_func_appends_packed_generation 0 [(strB "ns", (7 : Int))]
    (KeyInput.text (strB "foo")) (KeyInput.text (strB "ns")) 0 7 (strB "ns")
    (by rfl) (by rfl) (by decide) (by rfl)
    (by
      intro h
      rw [show key_arg_iterator (KeyInput.list
            (key_arg_iterator (KeyInput.text (strB "foo")) 1)) 1
          = [KeyInput.text (strB "foo")] from rfl] at h
      exact List.cons_ne_nil _ _ h)
    (by decide)

/-- Lookup after a set finds the value just set. -/
lemma lookupStore_set_self {α : Type} (st : Store α) (k : ByteStr) (v : α) :
    lookupStore (storeSet st k v) k = some v := by
  simp [lookupStore, storeSet]

/-- C5: on each call of a memoized function, a non-null stored value under
the derived key is returned without invoking the producer; a stored null
sentinel or absent key invokes the producer, stores its result with the
resolved TTL, and returns it; consequently a producer result equal to the
null sentinel is stored as the sentinel and a subsequent call invokes the
producer again. -/
theorem cached_function_get_or_compute {β : Type} (pl : Nat)
    (st : Store (Option β)) (key_args : KeyInput) (producer : Option β)
    (t : Timeout) (k : ByteStr)
    (hk : make_key pl (KeyInput.list (key_arg_iterator key_args 1)) = Except.ok k)
    (ht : neg_resolved t = false) :
    (∀ v : β, cache_get st k = some v →
      cached_function_call pl st key_args producer t
        = ⟨[CacheOp.get k], some (some v), st, false⟩) ∧
    (cache_get st k = Option.none →
      cached_function_call pl st key_args producer t
        = ⟨[CacheOp.get k, CacheOp.set k producer (resolve_timeout t)],
           some producer, storeSet st k producer, true⟩) ∧
    (cache_get st k = Option.none → producer = Option.none →
      (cached_function_call pl
        (cached_function_call pl st key_args producer t).store
        key_args producer t).invoked = true) := by
  refine ⟨?_, ?_, ?_⟩
  · intro v hv
    simp [cached_function_call, hk, hv]
  · intro hv
    simp [cached_function_call, hk, hv, set_cache, ht]
  · intro hv hp
    have hmiss : cached_function_call pl st key_args producer t
        = ⟨[CacheOp.get k, CacheOp.set k producer (resolve_timeout t)],
           some producer, storeSet st k producer, true⟩ := by
      simp [cached_function_call, hk, hv, set_cache, ht]
    rw [hmiss]
    have hv2 : cache_get (storeSet st k producer) k = Option.none := by
      simp [cache_get, lookupStore_set_self, hp]
    simp [cached_function_call, hk, hv2, set_cache, ht]

/-- C5 witness: a cache miss on the empty store computes, stores, and
returns the producer result 7. -/
theorem cached_function_get_or_compute_witness :
    cached_function_call 0 ([] : Store (Option Nat)) (KeyInput.text (strB "k"))
      (some 7) Timeout.none
      = ⟨[CacheOp.get (strB "k"), CacheOp.set (strB "k") (some 7) Option.none],
         some (some 7), storeSet [] (strB "k") (some 7), true⟩ :=
  (cached_function_get_or_compute 0 [] (KeyInput.text (strB "k")) (some 7)
    Timeout.none (strB "k") (by rfl) (by rfl)).2.1 (by rfl)

/-- C4, counterexample: with a negative TTL and a cache-missing key, the
backend `cache.get` for the derived key is issued (the operation trace is
`[get]`, not `[]`) and the producer runs before the negative-TTL error is
raised in `_set_cache` — the error is not raised before all store access,
as the claim demands. -/
theorem cached_function_negative_ttl_get_issued :
    cached_function_call 0 ([] : Store (Option Nat)) (KeyInput.text (strB "k"))
      (some 7) (Timeout.secs (-5))
      = ⟨[CacheOp.get (strB "k")], Option.none, [], true⟩ ∧
    neg_resolved (Timeout.secs (-5)) = true := by
  constructor
  · decide
  · decide

/-- C4 (amended): a TTL resolving to a negative number of seconds raises
only on the cache-miss path, inside `_set_cache`: the `cache.get` and the
producer invocation have already happened, no `set` or `delete` is issued
and the store is unchanged; on a cache hit the cached value is returned
with no error at all. -/
theorem cached_function_negative_ttl {β : Type} (pl : Nat)
    (st : Store (Option β)) (key_args : KeyInput) (producer : Option β)
    (t : Timeout) (k : ByteStr)
    (hk : make_key pl (KeyInput.list (key_arg_iterator key_args 1)) = Except.ok k)
    (ht : neg_resolved t = true) :
    (cache_get st k = Option.none →
      cached_function_call pl st key_args producer t
        = ⟨[CacheOp.get k], Option.none, st, true⟩) ∧
    (∀ v : β, cache_get st k = some v →
      cached_function_call pl st key_args producer t
        = ⟨[CacheOp.get k], some (some v), st, false⟩) := by
  constructor
  · intro hv
    simp [cached_function_call, hk, hv, set_cache, ht]
  · intro v hv
    simp [cached_function_call, hk, hv]

/-- C4 witness: the amended behaviour at a concrete miss with TTL -1. -/
theorem cached_function_negative_ttl_witness :
    cached_function_call 0 ([] : Store (Option Nat)) (KeyInput.text (strB "neg"))
      (some 9) (Timeout.secs (-1))
      = ⟨[CacheOp.get (strB "neg")], Option.none, [], true⟩ :=
  (cached_function_negative_ttl 0 [] (KeyInput.text (strB "neg")) (some 9)
    (Timeout.secs (-1)) (strB "neg") (by rfl) (by rfl)).1 (by rfl)
